import Mathlib

/-!
Verification of the klogg log-data search engine core.

This file gives a shallow embedding of the search-related code of the
repository (strong line types and tab handling from
`src/logdata/include/data/linetypes.h`, and the filtered-data search
worker: `filterLines`, `SearchData`, the block producer `linesSource`,
the combiner `matchProcessor`, and the `FullSearchOperation` /
`UpdateSearchOperation` run logic), together with theorems settling the
frozen specification claims about them.

Conventions:
* machine integers (`uint64_t`, `int`, `size_t`) are modelled as `Nat`;
  every modelled operation is checked to neither overflow nor underflow
  under the guards present in the source, so no explicit `% 2 ^ 64` is
  required;
* decoded lines are an abstract type `α`; the regular-expression
  matcher (`PatternMatcher::hasMatch`, including the inverse flag and
  boolean-combined patterns) is an abstract predicate `p : α → Bool`
  and the untabified-length computation an abstract `len : α → Nat`,
  since both are applied per line as opaque operations by the worker;
* the CRoaring bitmap `SearchResultArray` of the current worker is
  modelled as `Finset Nat` where it is used as a set (`|=`, `remove`,
  `cardinality`) and as an ascending `List Nat` where the code builds
  it in ascending order inside one chunk (`filterLines`).
-/

/-! ## Strong line types: saturating subtraction (`linetypes.h`) -/

/-- Embedding of `operator-( const LineNumber&, const LinesCount& )`:
`number.get() >= count.get() ? LineNumber(number.get() - count.get()) : LineNumber(0u)`.
Both underlying types are `uint64_t`; the guard makes the subtraction
exact, so the `Nat` model is faithful. -/
def lineNumberSubLinesCount (number count : Nat) : Nat :=
  if number ≥ count then number - count else 0

/-- Embedding of `operator-( const LineNumber&, const LineNumber& )`:
`n1.get() >= n2.get() ? LinesCount(n1.get() - n2.get()) : LinesCount(0u)`. -/
def lineNumberSubLineNumber (n1 n2 : Nat) : Nat :=
  if n1 ≥ n2 then n1 - n2 else 0

/-! ## Untabified length (`linetypes.h`) -/

/-- Length of a tab stop, `constexpr int TabStop = 8`. -/
def TabStop : Nat := 8

/-- Loop of `getUntabifiedLength`: walks the byte string visiting each
tab position `tabPosition` (byte value 9) in order and accumulates
`totalSpaces += TabStop - ((tabPosition + totalSpaces) % TabStop) - 1`.
The source finds successive `'\t'` positions with `find`; scanning every
byte and acting only on tabs visits exactly the same positions. -/
def getUntabifiedLengthGo : List Nat → Nat → Nat → Nat
  | [], _, totalSpaces => totalSpaces
  | b :: rest, pos, totalSpaces =>
    if b = 9 then
      getUntabifiedLengthGo rest (pos + 1)
        (totalSpaces + (TabStop - (pos + totalSpaces) % TabStop - 1))
    else
      getUntabifiedLengthGo rest (pos + 1) totalSpaces

/-- Embedding of `getUntabifiedLength( const LineType& utf8Line )`:
returns `utf8Line.size() + totalSpaces`.  The line is given as its byte
string (`List Nat`). -/
def getUntabifiedLength (utf8Line : List Nat) : Nat :=
  utf8Line.length + getUntabifiedLengthGo utf8Line 0 0

/-- Specification-side definition, following the words of claim C8: scan
the line left to right keeping a display column counter; a non-tab byte
occupies one column, a tab advances the counter to the next multiple of
`TabStop` (8). -/
def displayColumns : List Nat → Nat → Nat
  | [], col => col
  | b :: rest, col =>
    displayColumns rest (if b = 9 then col + (TabStop - col % TabStop) else col + 1)

lemma getUntabifiedLengthGo_spec (line : List Nat) :
    ∀ pos totalSpaces,
      pos + line.length + getUntabifiedLengthGo line pos totalSpaces
        = displayColumns line (pos + totalSpaces) := by
  induction line with
  | nil => intro pos totalSpaces; simp [getUntabifiedLengthGo, displayColumns]
  | cons b rest ih =>
    intro pos totalSpaces
    by_cases hb : b = 9
    · have hmod : (pos + totalSpaces) % TabStop < TabStop :=
        Nat.mod_lt _ (by norm_num [TabStop])
      have h := ih (pos + 1) (totalSpaces + (TabStop - (pos + totalSpaces) % TabStop - 1))
      simp only [getUntabifiedLengthGo, displayColumns, hb, List.length_cons, if_true,
        reduceIte]
      rw [show pos + 1 + (totalSpaces + (TabStop - (pos + totalSpaces) % TabStop - 1))
            = pos + totalSpaces + (TabStop - (pos + totalSpaces) % TabStop) from by omega] at h
      omega
    · have h := ih (pos + 1) totalSpaces
      simp only [getUntabifiedLengthGo, displayColumns, hb, List.length_cons, if_false,
        reduceIte]
      rw [show pos + 1 + totalSpaces = pos + totalSpaces + 1 from by omega] at h
      omega

/-- C8: for every line given as a byte string, `getUntabifiedLength`
equals the display column count obtained by scanning the line left to
right, counting each non-tab byte as one column and advancing at each
tab to the next multiple of 8. -/
theorem c8_getUntabifiedLength_eq_displayColumns (line : List Nat) :
    getUntabifiedLength line = displayColumns line 0 := by
  have := getUntabifiedLengthGo_spec line 0 0
  simpa [getUntabifiedLength] using this

/-- C9: mixed strong-type line subtraction saturates at zero:
`LineNumber - LinesCount` is `LineNumber(0)` whenever the count exceeds
the number, and `LineNumber - LineNumber` is `LinesCount(0)` whenever
the subtrahend exceeds the minuend; otherwise both compute the exact
difference. -/
theorem c9_line_subtraction_saturates (n c n1 n2 : Nat) :
    (n < c → lineNumberSubLinesCount n c = 0) ∧
    (c ≤ n → lineNumberSubLinesCount n c = n - c) ∧
    (n1 < n2 → lineNumberSubLineNumber n1 n2 = 0) ∧
    (n2 ≤ n1 → lineNumberSubLineNumber n1 n2 = n1 - n2) := by
  refine ⟨fun h => ?_, fun h => ?_, fun h => ?_, fun h => ?_⟩ <;>
    simp [lineNumberSubLinesCount, lineNumberSubLineNumber] <;> omega

theorem c9_line_subtraction_saturates_witness :
    (3 < 5 ∧ lineNumberSubLinesCount 3 5 = 0) ∧
    (2 ≤ 7 ∧ lineNumberSubLinesCount 7 2 = 5) ∧
    (4 < 9 ∧ lineNumberSubLineNumber 4 9 = 0) ∧
    (1 ≤ 6 ∧ lineNumberSubLineNumber 6 1 = 5) :=
  ⟨⟨by decide, (c9_line_subtraction_saturates 3 5 4 9).1 (by decide)⟩,
   ⟨by decide, (c9_line_subtraction_saturates 7 2 4 9).2.1 (by decide)⟩,
   ⟨by decide, (c9_line_subtraction_saturates 3 5 4 9).2.2.1 (by decide)⟩,
   ⟨by decide, (c9_line_subtraction_saturates 3 5 6 1).2.2.2 (by decide)⟩⟩

/-! ## Chunked search pipeline (`logfiltereddataworker.cpp`) -/

/-- Partial results of searching one chunk, embedding
`struct PartialSearchResults { SearchResultArray matchingLines; LineLength maxLength;
LineNumber chunkStart; LinesCount processedLines; }`.
`matchingLines` holds the ascending list of matched line numbers. -/
structure PartialSearchResults where
  matchingLines : List Nat
  maxLength : Nat
  chunkStart : Nat
  processedLines : Nat
deriving DecidableEq, Repr

/-- Embedding of `LogData::getLinesRaw( first, count )`: the decoded
lines `first, first+1, …, first+count-1` of the file. -/
def getLines {α : Type} (file : List α) (first count : Nat) : List α :=
  (file.drop first).take count

/-- Loop body of `filterLines`: walks the chunk's lines with their
offset inside the chunk, and for each line with a match records
`chunkStart + offset` in `matchingLines` and folds the line's
untabified length into `maxLength`. -/
def filterLinesGo {α : Type} (p : α → Bool) (len : α → Nat) (chunkStart : Nat) :
    List α → Nat → PartialSearchResults → PartialSearchResults
  | [], _, acc => acc
  | l :: rest, offset, acc =>
    filterLinesGo p len chunkStart rest (offset + 1)
      (if p l then
        { acc with
          maxLength := max acc.maxLength (len l),
          matchingLines := acc.matchingLines ++ [chunkStart + offset] }
      else acc)

/-- Embedding of
`filterLines( const PatternMatcher& matcher, const LogData::RawLines& rawLines, LineNumber chunkStart )`:
`processedLines` is the number of lines in the chunk; each line with
`matcher.hasMatch` contributes `chunkStart + offset` to `matchingLines`
(in ascending order) and its untabified length to `maxLength`. -/
def filterLines {α : Type} (p : α → Bool) (len : α → Nat)
    (rawLines : List α) (chunkStart : Nat) : PartialSearchResults :=
  filterLinesGo p len chunkStart rawLines 0
    { matchingLines := [], maxLength := 0, chunkStart := chunkStart,
      processedLines := rawLines.length }

/-- Whether the pattern matches line `n` of the file (false past the
end of the file). -/
def matchesAt {α : Type} (p : α → Bool) (file : List α) (n : Nat) : Bool :=
  (file[n]?.map p).getD false

/-- Proof-side accumulator: the absolute line numbers of the matching
lines of `lines`, the first line having absolute number `n`. -/
def matchedAbs {α : Type} (p : α → Bool) : List α → Nat → List Nat
  | [], _ => []
  | l :: rest, n => (if p l then [n] else []) ++ matchedAbs p rest (n + 1)

/-- Embedding of the block producer `linesSource` (a `tbb::flow::input_node`):
on each activation it first checks the interrupt flag (`flag step`,
where `step` counts activations) and stops if it is set; then stops if
`chunkStart >= endLine`; otherwise it reads the next chunk of
`min(nbLinesInChunk, endLine - chunkStart)` lines with `getLinesRaw`
and advances `chunkStart` by `nbLinesInChunk`.  The extra `fuel`
argument only makes the recursion structural: the caller passes
`endLine - chunkStart`, which bounds the number of activations whenever
`chunkSize ≥ 1` (each activation advances `chunkStart` by `chunkSize`). -/
def linesSourceGo {α : Type} (flag : Nat → Bool) (file : List α) (endLine chunkSize : Nat) :
    Nat → Nat → Nat → List (Nat × List α)
  | 0, _, _ => []
  | fuel + 1, chunkStart, step =>
    if flag step then []
    else if chunkStart < endLine then
      (chunkStart, getLines file chunkStart (min chunkSize (endLine - chunkStart)))
        :: linesSourceGo flag file endLine chunkSize fuel (chunkStart + chunkSize) (step + 1)
    else []

/-- The sequence of `(chunkStart, raw lines)` blocks emitted by
`linesSource`, starting from `chunkStart` with activation counter 0. -/
def linesSourceChunks {α : Type} (flag : Nat → Bool) (file : List α)
    (endLine chunkSize chunkStart : Nat) : List (Nat × List α) :=
  linesSourceGo flag file endLine chunkSize (endLine - chunkStart) chunkStart 0

/-- Embedding of `SearchOperation::doSearch` up to the committed partial
results: `initialLine` is clamped to `startLine_` from below, the
effective end line is `qMin(nbSourceLines, endLine_)`, and every block
emitted by `linesSource` is passed through `filterLines` by the matcher
pool.  Run to completion, each block is filtered exactly once. -/
def doSearchResults {α : Type} (flag : Nat → Bool) (p : α → Bool) (len : α → Nat)
    (file : List α) (startLine endLine chunkSize initialLine : Nat) :
    List PartialSearchResults :=
  (linesSourceChunks flag file (min file.length endLine) chunkSize
      (max initialLine startLine)).map
    (fun b => filterLines p len b.2 b.1)

/-! ### Characterisation of `filterLines` and the block producer -/

lemma filterLinesGo_matchingLines {α : Type} (p : α → Bool) (len : α → Nat) (cS : Nat) :
    ∀ (lines : List α) (offset : Nat) (acc : PartialSearchResults),
      (filterLinesGo p len cS lines offset acc).matchingLines
        = acc.matchingLines ++ matchedAbs p lines (cS + offset) := by
  intro lines
  induction lines with
  | nil => intro offset acc; simp [filterLinesGo, matchedAbs]
  | cons l rest ih =>
    intro offset acc
    by_cases hl : p l <;>
      simp [filterLinesGo, matchedAbs, hl, ih (offset + 1), Nat.add_assoc]

lemma filterLinesGo_processedLines {α : Type} (p : α → Bool) (len : α → Nat) (cS : Nat) :
    ∀ (lines : List α) (offset : Nat) (acc : PartialSearchResults),
      (filterLinesGo p len cS lines offset acc).processedLines = acc.processedLines ∧
      (filterLinesGo p len cS lines offset acc).chunkStart = acc.chunkStart := by
  intro lines
  induction lines with
  | nil => intro offset acc; simp [filterLinesGo]
  | cons l rest ih =>
    intro offset acc
    by_cases hl : p l <;> simp [filterLinesGo, hl, ih (offset + 1)]

lemma filterLines_matchingLines {α : Type} (p : α → Bool) (len : α → Nat)
    (lines : List α) (cS : Nat) :
    (filterLines p len lines cS).matchingLines = matchedAbs p lines cS := by
  simp [filterLines, filterLinesGo_matchingLines]

lemma filterLines_processedLines {α : Type} (p : α → Bool) (len : α → Nat)
    (lines : List α) (cS : Nat) :
    (filterLines p len lines cS).processedLines = lines.length ∧
    (filterLines p len lines cS).chunkStart = cS := by
  simpa [filterLines] using filterLinesGo_processedLines p len cS lines 0
    { matchingLines := [], maxLength := 0, chunkStart := cS, processedLines := lines.length }

lemma matchedAbs_getLines {α : Type} (p : α → Bool) (file : List α) :
    ∀ (m n : Nat), n + m ≤ file.length →
      matchedAbs p (getLines file n m) n
        = (List.range' n m).filter (fun j => matchesAt p file j) := by
  intro m
  induction m with
  | zero => intro n _; simp [getLines, matchedAbs, List.range']
  | succ m ih =>
    intro n hn
    have hlt : n < file.length := by omega
    have hdrop : file.drop n = file[n] :: file.drop (n + 1) :=
      List.drop_eq_getElem_cons hlt
    have hget : getLines file n (m + 1) = file[n] :: getLines file (n + 1) m := by
      unfold getLines
      rw [hdrop, List.take_succ_cons]
    have hmatch : matchesAt p file n = p file[n] := by
      simp [matchesAt, List.getElem?_eq_getElem hlt]
    have hrange : List.range' n (m + 1) = n :: List.range' (n + 1) m := by
      simp [List.range']
    rw [hget, hrange, List.filter_cons]
    by_cases hl : p (file[n]) <;>
      simp [matchedAbs, hl, hmatch, ih (n + 1) (by omega)]

lemma getLines_length {α : Type} (file : List α) (first count : Nat)
    (h : first + count ≤ file.length) : (getLines file first count).length = count := by
  simp [getLines]
  omega


lemma filterLines_processedLines_eq {α : Type} (p : α → Bool) (len : α → Nat)
    (lines : List α) (cS : Nat) :
    (filterLines p len lines cS).processedLines = lines.length :=
  (filterLines_processedLines p len lines cS).1

lemma filterLines_chunkStart_eq {α : Type} (p : α → Bool) (len : α → Nat)
    (lines : List α) (cS : Nat) :
    (filterLines p len lines cS).chunkStart = cS :=
  (filterLines_processedLines p len lines cS).2

lemma linesSourceGo_false_matching {α : Type} (p : α → Bool) (len : α → Nat)
    (file : List α) (e k : Nat) (he : e ≤ file.length) (hk : 0 < k) :
    ∀ (fuel c t : Nat), e - c ≤ fuel →
      ((linesSourceGo (fun _ => false) file e k fuel c t).map
          (fun b => (filterLines p len b.2 b.1).matchingLines)).flatten
        = (List.range' c (e - c)).filter (fun j => matchesAt p file j) := by
  intro fuel
  induction fuel with
  | zero =>
    intro c t hfuel
    have : e - c = 0 := by omega
    simp [linesSourceGo, this]
  | succ fuel ih =>
    intro c t hfuel
    by_cases hc : c < e
    · have hm : c + min k (e - c) ≤ file.length := by omega
      have hrec := ih (c + k) (t + 1) (by omega)
      simp only [linesSourceGo, Bool.false_eq_true, if_false, if_pos hc, List.map_cons,
        List.flatten_cons, filterLines_matchingLines,
        matchedAbs_getLines p file (min k (e - c)) c hm]
      simp only [filterLines_matchingLines] at hrec
      rw [hrec]
      rcases Nat.le_total k (e - c) with hke | hke
      · have h1 : min k (e - c) = k := by omega
        have h2 : e - (c + k) = e - c - k := by omega
        have happ := List.range'_append c k (e - c - k) 1
        simp only [Nat.one_mul, Nat.mul_one] at happ
        have h3 : e - c - k + k = e - c := by omega
        rw [h3] at happ
        rw [h1, h2, ← List.filter_append, happ]
      · have h1 : min k (e - c) = e - c := by omega
        have h2 : e - (c + k) = 0 := by omega
        simp [h1, h2]
    · have : e - c = 0 := by omega
      simp [linesSourceGo, hc, this]

lemma linesSourceGo_false_ranges {α : Type} (p : α → Bool) (len : α → Nat)
    (file : List α) (e k : Nat) (he : e ≤ file.length) (hk : 0 < k) :
    ∀ (fuel c t : Nat), e - c ≤ fuel →
      ((linesSourceGo (fun _ => false) file e k fuel c t).map
          (fun b => List.range' (filterLines p len b.2 b.1).chunkStart
            (filterLines p len b.2 b.1).processedLines)).flatten
        = List.range' c (e - c) := by
  intro fuel
  induction fuel with
  | zero =>
    intro c t hfuel
    have : e - c = 0 := by omega
    simp [linesSourceGo, this]
  | succ fuel ih =>
    intro c t hfuel
    by_cases hc : c < e
    · have hm : c + min k (e - c) ≤ file.length := by omega
      have hrec := ih (c + k) (t + 1) (by omega)
      have hlen : (getLines file c (min k (e - c))).length = min k (e - c) :=
        getLines_length file c _ hm
      simp only [linesSourceGo, Bool.false_eq_true, if_false, if_pos hc, List.map_cons,
        List.flatten_cons, filterLines_processedLines_eq, filterLines_chunkStart_eq, hlen]
      simp only [filterLines_processedLines_eq, filterLines_chunkStart_eq] at hrec
      rw [hrec]
      rcases Nat.le_total k (e - c) with hke | hke
      · have h1 : min k (e - c) = k := by omega
        have h2 : e - (c + k) = e - c - k := by omega
        have happ := List.range'_append c k (e - c - k) 1
        simp only [Nat.one_mul, Nat.mul_one] at happ
        have h3 : e - c - k + k = e - c := by omega
        rw [h3] at happ
        rw [h1, h2, happ]
      · have h1 : min k (e - c) = e - c := by omega
        have h2 : e - (c + k) = 0 := by omega
        simp [h1, h2]
    · have : e - c = 0 := by omega
      simp [linesSourceGo, hc, this]

/-- C1: for every search run to completion without interruption with
pattern `p` (the inverse flag folded into `p`) over `[startLine,
endLine)`, the concatenation of the committed chunks' matching lines is
exactly the matching lines of the effective range `[startLine,
min(endLine, line_count))` in ascending order — so the final match set
(the union `addAll` accumulates) is `{ n | p matches line n ∧ startLine
≤ n < min(endLine, line_count) }` — and the chunks' processed intervals
tile the effective range exactly once, chunk by chunk. -/
theorem c1_completed_search_match_set {α : Type} (p : α → Bool) (len : α → Nat)
    (file : List α) (startLine endLine chunkSize : Nat) (hk : 0 < chunkSize) :
    ((doSearchResults (fun _ => false) p len file startLine endLine chunkSize 0).map
        PartialSearchResults.matchingLines).flatten
      = (List.range' startLine (min file.length endLine - startLine)).filter
          (fun n => matchesAt p file n)
    ∧ ((doSearchResults (fun _ => false) p len file startLine endLine chunkSize 0).map
        (fun r => List.range' r.chunkStart r.processedLines)).flatten
      = List.range' startLine (min file.length endLine - startLine) := by
  have he : min file.length endLine ≤ file.length := Nat.min_le_left _ _
  constructor
  · have h := linesSourceGo_false_matching p len file (min file.length endLine) chunkSize
      he hk (min file.length endLine - max 0 startLine) (max 0 startLine) 0 (le_refl _)
    simpa [doSearchResults, linesSourceChunks, List.map_map, Function.comp] using h
  · have h := linesSourceGo_false_ranges p len file (min file.length endLine) chunkSize
      he hk (min file.length endLine - max 0 startLine) (max 0 startLine) 0 (le_refl _)
    simpa [doSearchResults, linesSourceChunks, List.map_map, Function.comp] using h

theorem c1_completed_search_match_set_witness :
    0 < 2 ∧
    ((doSearchResults (fun _ => false) (fun l => l == 1) (fun _ => 0) [1, 2, 1, 3, 1]
        1 4 2 0).map PartialSearchResults.matchingLines).flatten
      = (List.range' 1 (min (5 : Nat) 4 - 1)).filter
          (fun n => matchesAt (fun l => l == 1) [1, 2, 1, 3, 1] n) :=
  ⟨by decide,
   (c1_completed_search_match_set (fun l => l == 1) (fun _ => 0) [1, 2, 1, 3, 1]
      1 4 2 (by decide)).1⟩

/-! ## Full and update search operations run to completion -/

/-- State of the accumulated search results as seen by the consumer of
the worker.  `nbLinesProcessed` is `SearchData::nbLinesProcessed_`, the
processed-line watermark (`qMax`-folded `chunkStart + processedLines`
of every committed chunk, read back through `getLastProcessedLine`).
`matches` is the accumulated match set: the worker ORs each committed
chunk's `matchingLines` into `SearchData::newMatches_`, and the owning
`LogFilteredData` (not among the sources) drains those batches through
`takeCurrentResults`; modelled from the spec: the engine "maintains the
current search's sorted match set", `update_search` "preserv[es]
existing matches with line numbers below resume_from" and "the last
previously matched line is removed from the match set before
re-scanning" (the worker-side half of that removal is
`SearchData::deleteMatch`). -/
structure MatchState where
  matches_ : Finset Nat
  nbLinesProcessed : Nat
deriving DecidableEq

/-- Effect of committing one chunk's `PartialSearchResults`, from
`matchProcessor` + `SearchData::addAll`: results with
`processedLines == 0` carry no data; otherwise the chunk's matching
lines are OR-ed into the match set and the watermark becomes
`qMax( nbLinesProcessed_, chunkStart + processedLines )`. -/
def searchDataCommit (st : MatchState) (r : PartialSearchResults) : MatchState :=
  if r.processedLines ≠ 0 then
    { matches_ := st.matches_ ∪ r.matchingLines.toFinset,
      nbLinesProcessed := max st.nbLinesProcessed (r.chunkStart + r.processedLines) }
  else st

/-- `SearchOperation::doSearch` run to completion with no interruption:
every block emitted by `linesSource` is filtered and committed. -/
def doSearch {α : Type} (p : α → Bool) (len : α → Nat) (file : List α)
    (startLine endLine chunkSize initialLine : Nat) (st : MatchState) : MatchState :=
  (doSearchResults (fun _ => false) p len file startLine endLine chunkSize initialLine).foldl
    searchDataCommit st

/-- `run_search`, i.e. `FullSearchOperation::run` without an exception:
clear the shared data, then `doSearch( searchData, 0_lnum )`. -/
def runSearch {α : Type} (p : α → Bool) (len : α → Nat) (file : List α)
    (startLine endLine chunkSize : Nat) : MatchState :=
  doSearch p len file startLine endLine chunkSize 0 { matches_ := ∅, nbLinesProcessed := 0 }

/-- `update_search`, i.e. `UpdateSearchOperation::run` without an
exception, run to completion on the current file contents:
`initialLine = qMax( searchData.getLastProcessedLine(), initialPosition_ )`;
if `initialLine >= 1` it is decremented and the match at that line is
deleted (`searchData.deleteMatch( initialLine )`), then `doSearch`
continues from it. -/
def updateSearch {α : Type} (p : α → Bool) (len : α → Nat) (file : List α)
    (startLine endLine chunkSize initialPosition : Nat) (st : MatchState) : MatchState :=
  let initialLine := max st.nbLinesProcessed initialPosition
  if 1 ≤ initialLine then
    doSearch p len file startLine endLine chunkSize (initialLine - 1)
      { st with matches_ := st.matches_.erase (initialLine - 1) }
  else
    doSearch p len file startLine endLine chunkSize initialLine st

lemma filter_range'_chunk (c e k : Nat) (hc : c < e) (_hk : 0 < k) (q : Nat → Bool) :
    (List.range' c (min k (e - c))).filter q
        ++ (List.range' (c + k) (e - (c + k))).filter q
      = (List.range' c (e - c)).filter q := by
  rcases Nat.le_total k (e - c) with hke | hke
  · have h1 : min k (e - c) = k := by omega
    have h2 : e - (c + k) = e - c - k := by omega
    have happ := List.range'_append c k (e - c - k) 1
    simp only [Nat.one_mul, Nat.mul_one] at happ
    have h3 : e - c - k + k = e - c := by omega
    rw [h3] at happ
    rw [h1, h2, ← List.filter_append, happ]
  · have h1 : min k (e - c) = e - c := by omega
    have h2 : e - (c + k) = 0 := by omega
    simp [h1, h2]

lemma linesSourceGo_false_fold {α : Type} (p : α → Bool) (len : α → Nat)
    (file : List α) (e k : Nat) (he : e ≤ file.length) (hk : 0 < k) :
    ∀ (fuel c t : Nat) (st : MatchState), e - c ≤ fuel →
      (((linesSourceGo (fun _ => false) file e k fuel c t).map
          (fun b => filterLines p len b.2 b.1)).foldl searchDataCommit st).matches_
        = st.matches_ ∪ ((List.range' c (e - c)).filter (fun j => matchesAt p file j)).toFinset
      ∧ (((linesSourceGo (fun _ => false) file e k fuel c t).map
          (fun b => filterLines p len b.2 b.1)).foldl searchDataCommit st).nbLinesProcessed
        = if c < e then max st.nbLinesProcessed e else st.nbLinesProcessed := by
  intro fuel
  induction fuel with
  | zero =>
    intro c t st hfuel
    have h0 : e - c = 0 := by omega
    have hce : ¬ c < e := by omega
    simp [linesSourceGo, h0, hce]
  | succ fuel ih =>
    intro c t st hfuel
    by_cases hc : c < e
    · have hm : c + min k (e - c) ≤ file.length := by omega
      have hmpos : 0 < min k (e - c) := by omega
      have hlen : (getLines file c (min k (e - c))).length = min k (e - c) :=
        getLines_length file c _ hm
      set r := filterLines p len (getLines file c (min k (e - c))) c with hr
      have hml : r.matchingLines
          = (List.range' c (min k (e - c))).filter (fun j => matchesAt p file j) := by
        rw [hr, filterLines_matchingLines, matchedAbs_getLines p file _ c hm]
      have hpl : r.processedLines = min k (e - c) := by
        rw [hr, filterLines_processedLines_eq, hlen]
      have hcs : r.chunkStart = c := by rw [hr, filterLines_chunkStart_eq]
      have hcommit : searchDataCommit st r
          = { matches_ := st.matches_ ∪ r.matchingLines.toFinset,
              nbLinesProcessed := max st.nbLinesProcessed (c + min k (e - c)) } := by
        rw [searchDataCommit, if_pos (by omega), hpl, hcs]
      have hrec := ih (c + k) (t + 1)
        { matches_ := st.matches_ ∪ r.matchingLines.toFinset,
          nbLinesProcessed := max st.nbLinesProcessed (c + min k (e - c)) } (by omega)
      simp only [linesSourceGo, Bool.false_eq_true, if_false, if_pos hc, List.map_cons,
        List.foldl_cons, hcommit]
      refine ⟨?_, ?_⟩
      · rw [hrec.1, hml, Finset.union_assoc, ← List.toFinset_append,
          filter_range'_chunk c e k hc hk]
      · rw [hrec.2]
        dsimp only
        split <;> omega
    · have h0 : e - c = 0 := by omega
      simp [linesSourceGo, hc, h0]

lemma doSearch_components {α : Type} (p : α → Bool) (len : α → Nat) (file : List α)
    (s e k init : Nat) (st : MatchState) (hk : 0 < k) :
    (doSearch p len file s e k init st).matches_
      = st.matches_ ∪ ((List.range' (max init s) (min file.length e - max init s)).filter
          (fun j => matchesAt p file j)).toFinset
    ∧ (doSearch p len file s e k init st).nbLinesProcessed
      = if max init s < min file.length e then max st.nbLinesProcessed (min file.length e)
        else st.nbLinesProcessed := by
  have he : min file.length e ≤ file.length := Nat.min_le_left _ _
  have h := linesSourceGo_false_fold p len file (min file.length e) k he hk
    (min file.length e - max init s) (max init s) 0 st (le_refl _)
  simpa [doSearch, doSearchResults, linesSourceChunks] using h

lemma mem_filterRange (q : Nat → Bool) (a m n : Nat) :
    n ∈ ((List.range' a m).filter q).toFinset ↔ (a ≤ n ∧ n < a + m ∧ q n = true) := by
  simp only [List.mem_toFinset, List.mem_filter, List.mem_range'_1]
  constructor
  · rintro ⟨⟨h1, h2⟩, h3⟩; exact ⟨h1, h2, h3⟩
  · rintro ⟨h1, h2, h3⟩; exact ⟨⟨h1, h2⟩, h3⟩

lemma matchesAt_congr {α : Type} (p : α → Bool) (F1 F0 : List α) (n : Nat)
    (h : F1[n]? = F0[n]?) : matchesAt p F1 n = matchesAt p F0 n := by
  simp [matchesAt, h]

/-- C2 counterexample: with a resume point strictly beyond the prior
search's processed-line watermark, `update_search` run to completion
does not yield the match set of a fresh `run_search` on the same file.
Prior state: a completed search of the one-line file `[1]` over
`[0, 10)` with pattern "line = 1" (watermark 1, match set `{0}`).
Updating on the grown file `[1, 1, 1]` with resume point 3 resumes at
line `max(1, 3) - 1 = 2`, so line 1 is never searched: the update
yields `{0, 2}` while `run_search` yields `{0, 1, 2}`. -/
theorem c2_counterexample :
    (updateSearch (fun l => l == 1) (fun _ => 0) [1, 1, 1] 0 10 5 3
        (runSearch (fun l => l == 1) (fun _ => 0) [1] 0 10 5)).matches_
      ≠ (runSearch (fun l => l == 1) (fun _ => 0) [1, 1, 1] 0 10 5).matches_ := by
  decide

/-- C2 (amended): `update_search(p, s, e, r)` run to completion with no
further file change yields exactly the same match set as
`run_search(p, s, e)` on the current file contents, provided the
resume point `r` does not exceed the processed-line watermark of the
prior completed `run_search` (the code resumes from
`max(watermark, r) - 1`, so a resume point beyond the watermark would
skip the never-processed lines in between — see the counterexample).
The current contents `F1` are no shorter than the prior contents `F0`
and agree with them on the searched lines below `watermark - 1`; line
`watermark - 1` itself may have been rewritten — it is re-searched and
its old match deleted first, so matches below the resume point are
preserved and no line is duplicated. -/
theorem c2_update_search_resume (α : Type) (p : α → Bool) (len : α → Nat)
    (F0 F1 : List α) (s e k r : Nat) (hk : 0 < k)
    (hgrow : F0.length ≤ F1.length)
    (hr : r ≤ (runSearch p len F0 s e k).nbLinesProcessed)
    (hagree : ∀ j < (runSearch p len F0 s e k).nbLinesProcessed - 1,
      s ≤ j → F1[j]? = F0[j]?) :
    (updateSearch p len F1 s e k r (runSearch p len F0 s e k)).matches_
      = (runSearch p len F1 s e k).matches_ := by
  have he01 : min F0.length e ≤ min F1.length e := min_le_min hgrow (le_refl e)
  have hmax0 : max 0 s = s := Nat.zero_max s
  have hM0 : (runSearch p len F0 s e k).matches_
      = ((List.range' s (min F0.length e - s)).filter (fun j => matchesAt p F0 j)).toFinset := by
    have h := (doSearch_components p len F0 s e k 0 { matches_ := ∅, nbLinesProcessed := 0 } hk).1
    simpa [runSearch, hmax0] using h
  have hw : (runSearch p len F0 s e k).nbLinesProcessed
      = if s < min F0.length e then min F0.length e else 0 := by
    have h := (doSearch_components p len F0 s e k 0 { matches_ := ∅, nbLinesProcessed := 0 } hk).2
    simpa [runSearch, hmax0] using h
  have hM1 : (runSearch p len F1 s e k).matches_
      = ((List.range' s (min F1.length e - s)).filter (fun j => matchesAt p F1 j)).toFinset := by
    have h := (doSearch_components p len F1 s e k 0 { matches_ := ∅, nbLinesProcessed := 0 } hk).1
    simpa [runSearch, hmax0] using h
  by_cases hs : s < min F0.length e
  · have hw' : (runSearch p len F0 s e k).nbLinesProcessed = min F0.length e := by
      rw [hw, if_pos hs]
    have hag : ∀ j, j < min F0.length e - 1 → s ≤ j →
        matchesAt p F1 j = matchesAt p F0 j := by
      intro j hj hsj
      exact matchesAt_congr p F1 F0 j (hagree j (by rw [hw']; exact hj) hsj)
    have hone : 1 ≤ max (runSearch p len F0 s e k).nbLinesProcessed r := by
      rw [hw']; omega
    have hinit : max (runSearch p len F0 s e k).nbLinesProcessed r - 1
        = min F0.length e - 1 := by
      rw [Nat.max_eq_left hr, hw']
    have hup : updateSearch p len F1 s e k r (runSearch p len F0 s e k)
        = doSearch p len F1 s e k (min F0.length e - 1)
            { runSearch p len F0 s e k with
              matches_ := (runSearch p len F0 s e k).matches_.erase (min F0.length e - 1) } := by
      rw [updateSearch]
      simp only [if_pos hone, hinit]
    rw [hup]
    have hmaxi : max (min F0.length e - 1) s = min F0.length e - 1 := by omega
    have hcomp := (doSearch_components p len F1 s e k (min F0.length e - 1)
      { runSearch p len F0 s e k with
        matches_ := (runSearch p len F0 s e k).matches_.erase (min F0.length e - 1) } hk).1
    rw [hcomp, hM1]
    ext n
    simp only [Finset.mem_union, Finset.mem_erase, hM0, hmaxi, mem_filterRange]
    constructor
    · rintro (⟨hne, hn0⟩ | ⟨h1, h2, h3⟩)
      · rcases hn0 with ⟨ha, hb, hc⟩
        have hlt : n < min F0.length e - 1 := by omega
        refine ⟨ha, by omega, ?_⟩
        rw [hag n hlt ha]; exact hc
      · exact ⟨by omega, by omega, h3⟩
    · rintro ⟨h1, h2, h3⟩
      by_cases hlt : n < min F0.length e - 1
      · left
        refine ⟨by omega, h1, by omega, ?_⟩
        rw [← hag n hlt h1]; exact h3
      · right
        exact ⟨by omega, by omega, h3⟩
  · have hw0 : (runSearch p len F0 s e k).nbLinesProcessed = 0 := by
      rw [hw, if_neg hs]
    have hr0 : r = 0 := by omega
    have hup : updateSearch p len F1 s e k r (runSearch p len F0 s e k)
        = doSearch p len F1 s e k 0 (runSearch p len F0 s e k) := by
      rw [updateSearch]
      simp only [hw0, hr0, Nat.max_self, Nat.le_zero]
      norm_num
    have hM0empty : (runSearch p len F0 s e k).matches_ = ∅ := by
      rw [hM0]
      have : min F0.length e - s = 0 := by omega
      simp [this]
    have hcomp := (doSearch_components p len F1 s e k 0 (runSearch p len F0 s e k) hk).1
    rw [hup, hcomp, hM0empty, hM1, hmax0, Finset.empty_union]

theorem c2_update_search_resume_witness :
    ((0 < 5 ∧ (2 : Nat) ≤ (runSearch (fun l => l == 1) (fun _ => 0) [1, 2] 0 10 5).nbLinesProcessed) ∧
      (∀ j < (runSearch (fun l => (l : Nat) == 1) (fun _ => 0) [1, 2] 0 10 5).nbLinesProcessed - 1,
        0 ≤ j → [1, 2, 1][j]? = [1, 2][j]?)) ∧
    (updateSearch (fun l => l == 1) (fun _ => 0) [1, 2, 1] 0 10 5 2
        (runSearch (fun l => l == 1) (fun _ => 0) [1, 2] 0 10 5)).matches_
      = (runSearch (fun l => l == 1) (fun _ => 0) [1, 2, 1] 0 10 5).matches_ :=
  ⟨⟨⟨by decide, by decide⟩, by decide⟩,
   c2_update_search_resume Nat (fun l => l == 1) (fun _ => 0) [1, 2] [1, 2, 1] 0 10 5 2
     (by decide) (by decide) (by decide) (by decide)⟩

/-! ## Sorted merge of partial results (`SearchData::addAll`) -/

/-- Embedding of the legacy `SearchData::addAll`
(`logfiltereddataworkerthread.cpp`): if the incoming `matches` run is
non-empty, it is inserted as a block at
`std::lower_bound( begin(matches_), end(matches_), matches.front() )`.
On the sorted vector `matches_`, `lower_bound` is the boundary between
the longest prefix of elements `< matches.front()` and the rest, here
written with `takeWhile` / `dropWhile`. -/
def legacyAddAll (matchesAcc newMatches : List Nat) : List Nat :=
  match newMatches with
  | [] => matchesAcc
  | f :: _ =>
    matchesAcc.takeWhile (fun x => x < f) ++ newMatches
      ++ matchesAcc.dropWhile (fun x => x < f)

/-- A partial result is well formed when its matching lines are strictly
ascending (the matcher emits them in ascending order within a chunk)
and all lie inside the chunk's processed interval
`[chunkStart, chunkStart + processedLines)`. -/
def chunkWellFormed (r : PartialSearchResults) : Prop :=
  r.matchingLines.Sorted (· < ·) ∧
  ∀ x ∈ r.matchingLines, r.chunkStart ≤ x ∧ x < r.chunkStart + r.processedLines

/-- Two partial results cover disjoint chunk intervals (distinct chunks
of one search never overlap). -/
def chunksDisjoint (r r' : PartialSearchResults) : Prop :=
  r.chunkStart + r.processedLines ≤ r'.chunkStart ∨
  r'.chunkStart + r'.processedLines ≤ r.chunkStart

instance (r : PartialSearchResults) : Decidable (chunkWellFormed r) := by
  unfold chunkWellFormed
  infer_instance

instance (r r' : PartialSearchResults) : Decidable (chunksDisjoint r r') := by
  unfold chunksDisjoint
  infer_instance

lemma sorted_dropWhile_not_lt (f : Nat) :
    ∀ (acc : List Nat), acc.Sorted (· < ·) →
      ∀ x ∈ acc.dropWhile (fun y => y < f), f ≤ x := by
  intro acc
  induction acc with
  | nil => intro _ x hx; simp [List.dropWhile] at hx
  | cons a t ih =>
    intro hsort x hx
    rw [List.sorted_cons] at hsort
    by_cases ha : a < f
    · rw [List.dropWhile_cons_of_pos (by simpa using ha)] at hx
      exact ih hsort.2 x hx
    · rw [List.dropWhile_cons_of_neg (by simpa using ha)] at hx
      rcases List.mem_cons.mp hx with rfl | hx'
      · omega
      · have := hsort.1 x hx'
        omega

lemma legacyAddAll_mem (acc m : List Nat) (x : Nat) :
    x ∈ legacyAddAll acc m → x ∈ acc ∨ x ∈ m := by
  intro hx
  match m with
  | [] => exact Or.inl hx
  | f :: rest =>
    simp only [legacyAddAll, List.mem_append] at hx
    rcases hx with (hx | hx) | hx
    · exact Or.inl ((List.takeWhile_sublist _).mem hx)
    · exact Or.inr hx
    · exact Or.inl ((List.dropWhile_sublist _).mem hx)

lemma legacyAddAll_sorted (acc m : List Nat) (lo hi : Nat)
    (hacc : acc.Sorted (· < ·)) (hm : m.Sorted (· < ·))
    (hmint : ∀ x ∈ m, lo ≤ x ∧ x < hi)
    (hdisj : ∀ x ∈ acc, x < lo ∨ hi ≤ x) :
    (legacyAddAll acc m).Sorted (· < ·) := by
  match m with
  | [] => exact hacc
  | f :: rest =>
    have hflo : lo ≤ f := (hmint f (by simp)).1
    have hpre : ∀ x ∈ acc.takeWhile (fun y => y < f), x < f := by
      intro x hx
      simpa using List.mem_takeWhile_imp hx
    have hpost : ∀ x ∈ acc.dropWhile (fun y => y < f), f ≤ x :=
      sorted_dropWhile_not_lt f acc hacc
    have hpostup : ∀ x ∈ acc.dropWhile (fun y => y < f), hi ≤ x := by
      intro x hx
      have hxacc : x ∈ acc := (List.dropWhile_sublist _).mem hx
      have := hdisj x hxacc
      have := hpost x hx
      omega
    have hmge : ∀ y ∈ f :: rest, f ≤ y := by
      rw [List.sorted_cons] at hm
      intro y hy
      rcases List.mem_cons.mp hy with rfl | hy'
      · omega
      · have := hm.1 y hy'
        omega
    have hmhi : ∀ y ∈ f :: rest, y < hi := fun y hy => (hmint y hy).2
    rw [legacyAddAll]
    refine List.pairwise_append.mpr ⟨List.pairwise_append.mpr
      ⟨hacc.sublist (List.takeWhile_sublist _), hm, ?_⟩,
      hacc.sublist (List.dropWhile_sublist _), ?_⟩
    · intro x hx y hy
      have := hpre x hx
      have := hmge y hy
      omega
    · intro x hx y hy
      have hyhi := hpostup y hy
      have hfhi := hmhi f (by simp)
      rcases List.mem_append.mp hx with hx | hx
      · have := hpre x hx
        omega
      · have := hmhi x hx
        omega

lemma legacyFold_sorted :
    ∀ (rs : List PartialSearchResults) (acc : List Nat),
      acc.Sorted (· < ·) →
      (∀ x ∈ acc, ∀ r ∈ rs, x < r.chunkStart ∨ r.chunkStart + r.processedLines ≤ x) →
      (∀ r ∈ rs, chunkWellFormed r) →
      rs.Pairwise chunksDisjoint →
      (rs.foldl (fun a r => legacyAddAll a r.matchingLines) acc).Sorted (· < ·) := by
  intro rs
  induction rs with
  | nil => intro acc hacc _ _ _; exact hacc
  | cons r rest ih =>
    intro acc hacc hsep hwf hdisj
    rw [List.pairwise_cons] at hdisj
    have hwfr := hwf r (by simp)
    have hacc' : (legacyAddAll acc r.matchingLines).Sorted (· < ·) :=
      legacyAddAll_sorted acc r.matchingLines r.chunkStart
        (r.chunkStart + r.processedLines) hacc hwfr.1 hwfr.2
        (fun x hx => hsep x hx r (by simp))
    refine ih (legacyAddAll acc r.matchingLines) hacc' ?_
      (fun r' hr' => hwf r' (by simp [hr'])) hdisj.2
    intro x hx r' hr'
    rcases legacyAddAll_mem acc r.matchingLines x hx with hxa | hxm
    · exact hsep x hxa r' (by simp [hr'])
    · have hxint := hwfr.2 x hxm
      have := hdisj.1 r' hr'
      rw [chunksDisjoint] at this
      omega

lemma matchedAbs_bounds {α : Type} (p : α → Bool) :
    ∀ (lines : List α) (n : Nat), ∀ x ∈ matchedAbs p lines n,
      n ≤ x ∧ x < n + lines.length := by
  intro lines
  induction lines with
  | nil => intro n x hx; simp [matchedAbs] at hx
  | cons l rest ih =>
    intro n x hx
    simp only [matchedAbs, List.mem_append] at hx
    rcases hx with hx | hx
    · rcases (by split at hx <;> simp_all : x = n) with rfl
      simp
    · have := ih (n + 1) x hx
      simp only [List.length_cons]
      omega

lemma matchedAbs_sorted {α : Type} (p : α → Bool) :
    ∀ (lines : List α) (n : Nat), (matchedAbs p lines n).Sorted (· < ·) := by
  intro lines
  induction lines with
  | nil => intro n; simp [matchedAbs]
  | cons l rest ih =>
    intro n
    by_cases hl : p l
    · simp only [matchedAbs, hl, if_true, List.singleton_append]
      rw [List.sorted_cons]
      refine ⟨fun b hb => ?_, ih (n + 1)⟩
      have := matchedAbs_bounds p rest (n + 1) b hb
      omega
    · simpa [matchedAbs, hl] using ih (n + 1)

/-- C3: the match set stays strictly sorted in ascending order with no
duplicate line numbers after any prefix of combiner commits, regardless
of the order in which matcher chunks complete: folding `addAll` over
any sequence of well-formed partial results of pairwise disjoint chunks
yields a strictly sorted, duplicate-free vector; and `filterLines`
always produces such a well-formed partial result (matches ascending
within the chunk's interval). -/
theorem c3_match_set_sorted_nodup {α : Type} (p : α → Bool) (len : α → Nat)
    (rs : List PartialSearchResults) (lines : List α) (cS : Nat)
    (hwf : ∀ r ∈ rs, chunkWellFormed r)
    (hdisj : rs.Pairwise chunksDisjoint) :
    (rs.foldl (fun a r => legacyAddAll a r.matchingLines) []).Sorted (· < ·) ∧
    (rs.foldl (fun a r => legacyAddAll a r.matchingLines) []).Nodup ∧
    chunkWellFormed (filterLines p len lines cS) := by
  have hsorted : (rs.foldl (fun a r => legacyAddAll a r.matchingLines) []).Sorted (· < ·) :=
    legacyFold_sorted rs [] (by simp) (by simp) hwf hdisj
  refine ⟨hsorted, hsorted.nodup, ?_, ?_⟩
  · rw [filterLines_matchingLines]
    exact matchedAbs_sorted p lines cS
  · intro x hx
    rw [filterLines_matchingLines] at hx
    have := matchedAbs_bounds p lines cS x hx
    rw [filterLines_chunkStart_eq, filterLines_processedLines_eq]
    omega

theorem c3_match_set_sorted_nodup_witness :
    ((∀ r ∈ [({ matchingLines := [10, 12], maxLength := 0, chunkStart := 10,
                processedLines := 5 } : PartialSearchResults),
              { matchingLines := [2, 4], maxLength := 0, chunkStart := 0,
                processedLines := 5 }], chunkWellFormed r) ∧
      List.Pairwise chunksDisjoint
        [({ matchingLines := [10, 12], maxLength := 0, chunkStart := 10,
            processedLines := 5 } : PartialSearchResults),
         { matchingLines := [2, 4], maxLength := 0, chunkStart := 0,
           processedLines := 5 }]) ∧
    ([({ matchingLines := [10, 12], maxLength := 0, chunkStart := 10,
         processedLines := 5 } : PartialSearchResults),
       { matchingLines := [2, 4], maxLength := 0, chunkStart := 0,
         processedLines := 5 }].foldl
        (fun a r => legacyAddAll a r.matchingLines) []).Sorted (· < ·) :=
  ⟨⟨by decide, by decide⟩,
   (c3_match_set_sorted_nodup (fun l => l == 5) (fun _ => 0)
      [{ matchingLines := [10, 12], maxLength := 0, chunkStart := 10, processedLines := 5 },
       { matchingLines := [2, 4], maxLength := 0, chunkStart := 0, processedLines := 5 }]
      [5, 1, 5] 7 (by decide) (by decide)).1⟩

/-! ## Shared search data (`SearchData`, current worker) -/

/-- Embedding of the worker's shared `SearchData` with the fields of the
source: `maxLength_`, `nbLinesProcessed_`, `nbMatches_`, and the two
`SearchResultArray` bitmaps `matches_` and `newMatches_`, modelled as
`Finset Nat`. -/
structure SearchData where
  maxLength_ : Nat
  nbLinesProcessed_ : Nat
  nbMatches_ : Nat
  matches_ : Finset Nat
  newMatches_ : Finset Nat
deriving DecidableEq

/-- Embedding of `struct SearchResults`, the value returned by
`SearchData::takeCurrentResults`. -/
structure SearchResults where
  newMatches : Finset Nat
  maxLength : Nat
  nbLinesProcessed : Nat
deriving DecidableEq

/-- `SearchData::addAll( length, matches, lines )`: folds a committed
chunk into the shared data — `maxLength_ = qMax(maxLength_, length)`,
`nbLinesProcessed_ = qMax(nbLinesProcessed_, lines)`,
`nbMatches_ += matches.cardinality()`, `newMatches_ |= matches`. -/
def SearchData.addAll (d : SearchData) (length : Nat) (matches2 : Finset Nat)
    (lines : Nat) : SearchData :=
  { d with
    maxLength_ := max d.maxLength_ length,
    nbLinesProcessed_ := max d.nbLinesProcessed_ lines,
    nbMatches_ := d.nbMatches_ + matches2.card,
    newMatches_ := d.newMatches_ ∪ matches2 }

/-- `SearchData::takeCurrentResults`: returns
`SearchResults{ std::exchange( newMatches_, {} ), maxLength_, nbLinesProcessed_ }`,
i.e. hands back the pending new matches and resets them to empty. -/
def SearchData.takeCurrentResults (d : SearchData) : SearchData × SearchResults :=
  ({ d with newMatches_ := ∅ },
   { newMatches := d.newMatches_, maxLength := d.maxLength_,
     nbLinesProcessed := d.nbLinesProcessed_ })

/-- `SearchData::getNbMatches`. -/
def SearchData.getNbMatches (d : SearchData) : Nat := d.nbMatches_

/-- `SearchData::getLastProcessedLine`: `LineNumber{ nbLinesProcessed_.get() }`. -/
def SearchData.getLastProcessedLine (d : SearchData) : Nat := d.nbLinesProcessed_

/-- `SearchData::deleteMatch( line )`: `matches_.remove( line.get() )`. -/
def SearchData.deleteMatch (d : SearchData) (line : Nat) : SearchData :=
  { d with matches_ := d.matches_.erase line }

/-- `SearchData::clear`: resets every field. -/
def SearchData.clear (_d : SearchData) : SearchData :=
  { maxLength_ := 0, nbLinesProcessed_ := 0, nbMatches_ := 0,
    matches_ := ∅, newMatches_ := ∅ }

lemma foldl_union_init (adds : List (Nat × Finset Nat × Nat)) :
    ∀ (s : Finset Nat),
      adds.foldl (fun acc a => acc ∪ a.2.1) s
        = s ∪ adds.foldl (fun acc a => acc ∪ a.2.1) ∅ := by
  induction adds with
  | nil => intro s; simp
  | cons a rest ih =>
    intro s
    simp only [List.foldl_cons]
    rw [ih (s ∪ a.2.1), ih (∅ ∪ a.2.1), Finset.empty_union, Finset.union_assoc]

lemma foldl_addAll_newMatches (adds : List (Nat × Finset Nat × Nat)) :
    ∀ (d : SearchData),
      (adds.foldl (fun acc a => acc.addAll a.1 a.2.1 a.2.2) d).newMatches_
        = d.newMatches_ ∪ adds.foldl (fun acc a => acc ∪ a.2.1) ∅ := by
  induction adds with
  | nil => intro d; simp
  | cons a rest ih =>
    intro d
    simp only [List.foldl_cons]
    rw [ih (d.addAll a.1 a.2.1 a.2.2), foldl_union_init rest (∅ ∪ a.2.1)]
    simp [SearchData.addAll, Finset.union_assoc]

/-- C10: the take/reset delivery protocol of `SearchData`: after a
`takeCurrentResults` call, the next `takeCurrentResults` returns in its
new-matches field exactly the union of the match sets committed through
`addAll` since that previous call (so every committed match is handed
back in exactly one subsequent call), and an immediately repeated call
with no intervening `addAll` returns an empty new-matches set. -/
theorem c10_takeCurrentResults_protocol (d : SearchData)
    (adds : List (Nat × Finset Nat × Nat)) :
    ((adds.foldl (fun acc a => acc.addAll a.1 a.2.1 a.2.2)
        d.takeCurrentResults.1).takeCurrentResults).2.newMatches
      = adds.foldl (fun acc a => acc ∪ a.2.1) ∅ ∧
    ((d.takeCurrentResults.1).takeCurrentResults).2.newMatches = ∅ := by
  constructor
  · rw [show ((adds.foldl (fun acc a => acc.addAll a.1 a.2.1 a.2.2)
        d.takeCurrentResults.1).takeCurrentResults).2.newMatches
      = (adds.foldl (fun acc a => acc.addAll a.1 a.2.1 a.2.2)
        d.takeCurrentResults.1).newMatches_ from rfl]
    rw [foldl_addAll_newMatches]
    simp [SearchData.takeCurrentResults]
  · rfl

/-! ## Combiner and progress events (`matchProcessor`) -/

/-- Modelled from the spec: `calculateProgress` lives in `progress.h`,
which is not among the sources; per the spec the reported percentage is
the "floor of `100 * processed / total`" (`Nat` division is that
floor; a zero total yields 0 here, a case the pipeline never produces
since with no lines to process no chunk token ever reaches the
combiner). -/
def calculateProgress (processed total : Nat) : Nat := 100 * processed / total

/-- State of the single-threaded combiner `matchProcessor` (the
captured locals of `doSearch`): the shared `SearchData`, the running
`totalProcessedLines`, `maxLength` and `nbMatches`, the last reported
percentage and match count, and the `searchProgressed` events emitted
so far as `(nbMatches, percentage, initialLine)` triples. -/
structure CombinerState where
  searchData : SearchData
  totalProcessedLines : Nat
  maxLength : Nat
  nbMatches : Nat
  reportedMatches : Nat
  reportedPercentage : Nat
  events : List (Nat × Nat × Nat)
deriving DecidableEq

/-- One invocation of `matchProcessor` on a partial-result token: if
the interrupt flag is observed the token is dropped with no state
change; otherwise a token with non-zero `processedLines` updates
`maxLength`, `nbMatches` (by the chunk's cardinality),
`totalProcessedLines`, and commits through `searchData.addAll`; then a
`searchProgressed( nbMatches, std::min( 99, percentage ), initialLine )`
event is emitted whenever the percentage or the match count exceeds the
last reported values. -/
def matchProcessorStep (interrupted : Bool) (totalLines initialLine : Nat)
    (st : CombinerState) (r : PartialSearchResults) : CombinerState :=
  if interrupted then st
  else
    let st1 :=
      if r.processedLines ≠ 0 then
        { st with
          maxLength := max st.maxLength r.maxLength,
          nbMatches := st.nbMatches + r.matchingLines.toFinset.card,
          totalProcessedLines := st.totalProcessedLines + r.processedLines,
          searchData := st.searchData.addAll (max st.maxLength r.maxLength)
            r.matchingLines.toFinset (r.chunkStart + r.processedLines) }
      else st
    let percentage := calculateProgress st1.totalProcessedLines totalLines
    if st1.reportedPercentage < percentage ∨ st1.reportedMatches < st1.nbMatches then
      { st1 with
        events := st1.events ++ [(st1.nbMatches, min 99 percentage, initialLine)],
        reportedPercentage := percentage,
        reportedMatches := st1.nbMatches }
    else st1

/-- The combiner's state at the start of `doSearch`:
`nbMatches = searchData.getNbMatches()`, `reportedMatches = nbMatches`,
`reportedPercentage = 0`, nothing processed, no events emitted. -/
def initialCombinerState (d : SearchData) : CombinerState :=
  { searchData := d, totalProcessedLines := 0, maxLength := 0,
    nbMatches := d.getNbMatches, reportedMatches := d.getNbMatches,
    reportedPercentage := 0, events := [] }

/-- The combiner folded over a sequence of partial-result tokens with
the interrupt flag never observed. -/
def combinerRun (totalLines initialLine : Nat) (st : CombinerState)
    (rs : List PartialSearchResults) : CombinerState :=
  rs.foldl (matchProcessorStep false totalLines initialLine) st

/-- The `searchProgressed` events of one uninterrupted search: the ones
emitted by `matchProcessor`, followed by the final
`emit searchProgressed( nbMatches, 100, initialLine )` of `doSearch`
on clean completion. -/
def searchEvents (d : SearchData) (totalLines initialLine : Nat)
    (rs : List PartialSearchResults) : List (Nat × Nat × Nat) :=
  (combinerRun totalLines initialLine (initialCombinerState d) rs).events
    ++ [((combinerRun totalLines initialLine (initialCombinerState d) rs).nbMatches,
         100, initialLine)]

/-- Proof-side invariant of the combiner state: events so far are
monotone in match count and percentage, capped at 99, and bounded by
the current counters. -/
def combinerInv (total : Nat) (st : CombinerState) : Prop :=
  List.Chain' (fun a b => a.1 ≤ b.1 ∧ a.2.1 ≤ b.2.1) st.events ∧
  ∀ ev ∈ st.events, ev.2.1 ≤ 99 ∧ ev.1 ≤ st.nbMatches ∧
    ev.2.1 ≤ min 99 (calculateProgress st.totalProcessedLines total)

lemma mem_of_getLast_opt {α : Type} {l : List α} {x : α} (h : x ∈ l.getLast?) : x ∈ l := by
  rcases List.mem_getLast?_eq_getLast h with ⟨hne, rfl⟩
  exact List.getLast_mem hne

lemma calculateProgress_mono (total a b : Nat) (h : a ≤ b) :
    calculateProgress a total ≤ calculateProgress b total :=
  Nat.div_le_div_right (Nat.mul_le_mul_left 100 h)

lemma matchProcessorStep_inv (total init : Nat) (st : CombinerState)
    (r : PartialSearchResults) (hinv : combinerInv total st) :
    combinerInv total (matchProcessorStep false total init st r) := by
  rcases hinv with ⟨hchain, hbound⟩
  rw [matchProcessorStep]
  simp only [Bool.false_eq_true, if_false]
  set st1 := if r.processedLines ≠ 0 then
      { st with
        maxLength := max st.maxLength r.maxLength,
        nbMatches := st.nbMatches + r.matchingLines.toFinset.card,
        totalProcessedLines := st.totalProcessedLines + r.processedLines,
        searchData := st.searchData.addAll (max st.maxLength r.maxLength)
          r.matchingLines.toFinset (r.chunkStart + r.processedLines) }
    else st with hst1
  have hev1 : st1.events = st.events := by
    rw [hst1]; split <;> rfl
  have hnb1 : st.nbMatches ≤ st1.nbMatches := by
    rw [hst1]; split <;> simp
  have htp1 : st.totalProcessedLines ≤ st1.totalProcessedLines := by
    rw [hst1]; split <;> simp
  have hpct1 : calculateProgress st.totalProcessedLines total
      ≤ calculateProgress st1.totalProcessedLines total :=
    calculateProgress_mono total _ _ htp1
  by_cases hemit : st1.reportedPercentage < calculateProgress st1.totalProcessedLines total
      ∨ st1.reportedMatches < st1.nbMatches
  · rw [if_pos hemit]
    constructor
    · rw [List.chain'_append]
      refine ⟨by rw [hev1]; exact hchain, List.chain'_singleton _, ?_⟩
      intro x hx y hy
      rw [hev1] at hx
      have hxmem : x ∈ st.events := mem_of_getLast_opt hx
      have hb := hbound x hxmem
      simp only [List.head?_cons, Option.mem_def, Option.some.injEq] at hy
      subst hy
      dsimp only
      constructor <;> omega
    · intro ev hev
      dsimp only at hev ⊢
      rw [hev1] at hev
      rcases List.mem_append.mp hev with hev | hev
      · have hb := hbound ev hev
        refine ⟨hb.1, by omega, by omega⟩
      · simp only [List.mem_singleton] at hev
        subst hev
        dsimp only
        refine ⟨by omega, by omega, by omega⟩
  · rw [if_neg hemit]
    constructor
    · rw [hev1]; exact hchain
    · intro ev hev
      rw [hev1] at hev
      have hb := hbound ev hev
      refine ⟨hb.1, by omega, by omega⟩

lemma combinerRun_inv (total init : Nat) (rs : List PartialSearchResults) :
    ∀ (st : CombinerState), combinerInv total st →
      combinerInv total (combinerRun total init st rs) ∧
      st.nbMatches ≤ (combinerRun total init st rs).nbMatches := by
  induction rs with
  | nil => intro st h; exact ⟨h, le_refl _⟩
  | cons r rest ih =>
    intro st h
    have hstep := matchProcessorStep_inv total init st r h
    have hnb : st.nbMatches ≤ (matchProcessorStep false total init st r).nbMatches := by
      rw [matchProcessorStep]
      simp only [Bool.false_eq_true, if_false]
      split <;> split <;> simp
    have := ih (matchProcessorStep false total init st r) hstep
    exact ⟨this.1, le_trans hnb this.2⟩

/-- C4: within a single search the emitted `searchProgressed` events
are monotone: match counts and percentages never decrease across
successive events; every event emitted by the combiner before
completion carries a percentage of at most 99; and clean completion
appends a final event with percentage 100 (and the final match
count). -/
theorem c4_progress_events_monotone (d : SearchData) (total init : Nat)
    (rs : List PartialSearchResults) :
    List.Chain' (fun a b => a.1 ≤ b.1 ∧ a.2.1 ≤ b.2.1) (searchEvents d total init rs) ∧
    (∀ ev ∈ (combinerRun total init (initialCombinerState d) rs).events, ev.2.1 ≤ 99) ∧
    (searchEvents d total init rs).getLast?
      = some ((combinerRun total init (initialCombinerState d) rs).nbMatches, 100, init) := by
  have hinv0 : combinerInv total (initialCombinerState d) := by
    constructor <;> simp [initialCombinerState]
  have hrun := (combinerRun_inv total init rs (initialCombinerState d) hinv0).1
  rcases hrun with ⟨hchain, hbound⟩
  refine ⟨?_, fun ev hev => (hbound ev hev).1, ?_⟩
  · rw [searchEvents, List.chain'_append]
    refine ⟨hchain, List.chain'_singleton _, ?_⟩
    intro x hx y hy
    have hxmem : x ∈ (combinerRun total init (initialCombinerState d) rs).events :=
      mem_of_getLast_opt hx
    have hb := hbound x hxmem
    simp only [List.head?_cons, Option.mem_def, Option.some.injEq] at hy
    subst hy
    dsimp only
    exact ⟨hb.2.1, by omega⟩
  · rw [searchEvents, List.getLast?_concat]

/-! ## Interrupt behaviour (`linesSource`, `interrupt`, `matchProcessor`) -/

/-- Embedding of the `LogFilteredDataWorker` state relevant to
interruption: the `interruptRequested_` atomic flag and the shared
`searchData_`. -/
structure LogFilteredDataWorker where
  interruptRequested : Bool
  searchData : SearchData
deriving DecidableEq

/-- `LogFilteredDataWorker::interrupt`: sets `interruptRequested_` and
does nothing else. -/
def LogFilteredDataWorker.interrupt (w : LogFilteredDataWorker) : LogFilteredDataWorker :=
  { w with interruptRequested := true }

lemma linesSourceGo_flag_length {α : Type} (flag : Nat → Bool) (file : List α)
    (e k : Nat) (_hmono : ∀ i j, i ≤ j → flag i = true → flag j = true) :
    ∀ (fuel c t n : Nat), flag (t + n) = true →
      (linesSourceGo flag file e k fuel c t).length ≤ n := by
  intro fuel
  induction fuel with
  | zero => intro c t n _; simp [linesSourceGo]
  | succ fuel ih =>
    intro c t n hn
    by_cases hf : flag t
    · simp [linesSourceGo, hf]
    · rw [linesSourceGo, if_neg (by simp [hf])]
      by_cases hc : c < e
      · rw [if_pos hc]
        match n with
        | 0 =>
          exfalso
          have : flag t = true := by simpa using hn
          simp [this] at hf
        | n' + 1 =>
          have hrec := ih (c + k) (t + 1) n' (by
            have : t + 1 + n' = t + (n' + 1) := by omega
            rw [this]; exact hn)
          simpa using hrec
      · simp [if_neg hc]

lemma linesSourceGo_flag_take {α : Type} (flag : Nat → Bool) (file : List α) (e k : Nat) :
    ∀ (fuel c t : Nat),
      linesSourceGo flag file e k fuel c t
        = (linesSourceGo (fun _ => false) file e k fuel c t).take
            (linesSourceGo flag file e k fuel c t).length := by
  intro fuel
  induction fuel with
  | zero => intro c t; simp [linesSourceGo]
  | succ fuel ih =>
    intro c t
    by_cases hf : flag t
    · simp [linesSourceGo, hf]
    · rw [linesSourceGo, if_neg (by simp [hf])]
      by_cases hc : c < e
      · rw [if_pos hc]
        rw [show linesSourceGo (fun _ => false) file e k (fuel + 1) c t
            = (c, getLines file c (min k (e - c)))
              :: linesSourceGo (fun _ => false) file e k fuel (c + k) (t + 1) from by
          rw [linesSourceGo, if_neg (by simp), if_pos hc]]
        simp only [List.length_cons, List.take_succ_cons, List.cons.injEq, true_and]
        exact ih (c + k) (t + 1)
      · simp [linesSourceGo, hc, hf]

/-- C5: once the search interrupt flag is set (it is monotone: set once,
never cleared during the run), the block producer reads no further
chunk — it checks the flag before each read, so if the flag is observed
at activation `n` at most `n` chunks are ever read, and the chunks read
form a prefix of the uninterrupted chunk sequence; `interrupt()` only
sets the flag, leaving the accumulated `searchData_` untouched; and the
combiner, on observing the flag, drops the token without modifying any
state — in particular interruption never clears the committed match
set and is not an error path. -/
theorem c5_interrupt_stops_producer_preserves_data {α : Type} (flag : Nat → Bool)
    (file : List α) (e k c n : Nat) (w : LogFilteredDataWorker)
    (total init : Nat) (st : CombinerState) (r : PartialSearchResults)
    (hmono : ∀ i j, i ≤ j → flag i = true → flag j = true)
    (hn : flag n = true) :
    (linesSourceChunks flag file e k c).length ≤ n ∧
    linesSourceChunks flag file e k c
      = (linesSourceChunks (fun _ => false) file e k c).take
          (linesSourceChunks flag file e k c).length ∧
    w.interrupt.searchData = w.searchData ∧
    matchProcessorStep true total init st r = st := by
  refine ⟨?_, ?_, rfl, rfl⟩
  · exact linesSourceGo_flag_length flag file e k hmono (e - c) c 0 n (by simpa using hn)
  · exact linesSourceGo_flag_take flag file e k (e - c) c 0

theorem c5_interrupt_stops_producer_preserves_data_witness :
    ((∀ i j, i ≤ j → (fun t => decide (2 ≤ t)) i = true → (fun t => decide (2 ≤ t)) j = true) ∧
      (fun t => decide (2 ≤ t)) 2 = true) ∧
    (linesSourceChunks (fun t => decide (2 ≤ t)) [1, 2, 3, 4, 5] 5 1 0).length ≤ 2 ∧
    linesSourceChunks (fun t => decide (2 ≤ t)) [1, 2, 3, 4, 5] 5 1 0
      = (linesSourceChunks (fun _ => false) [1, 2, 3, 4, 5] 5 1 0).take
          (linesSourceChunks (fun t => decide (2 ≤ t)) [1, 2, 3, 4, 5] 5 1 0).length ∧
    (LogFilteredDataWorker.interrupt
        { interruptRequested := false,
          searchData := { maxLength_ := 7, nbLinesProcessed_ := 9, nbMatches_ := 2,
                          matches_ := {1, 4}, newMatches_ := {4} } }).searchData
      = { maxLength_ := 7, nbLinesProcessed_ := 9, nbMatches_ := 2,
          matches_ := {1, 4}, newMatches_ := {4} } ∧
    matchProcessorStep true 5 0
        (initialCombinerState
          { maxLength_ := 7, nbLinesProcessed_ := 9, nbMatches_ := 2,
            matches_ := {1, 4}, newMatches_ := {4} })
        { matchingLines := [3], maxLength := 1, chunkStart := 3, processedLines := 1 }
      = initialCombinerState
          { maxLength_ := 7, nbLinesProcessed_ := 9, nbMatches_ := 2,
            matches_ := {1, 4}, newMatches_ := {4} } :=
  ⟨⟨fun i j hij h => by
      simp only [decide_eq_true_eq] at h ⊢
      omega,
    by decide⟩,
   c5_interrupt_stops_producer_preserves_data (fun t => decide (2 ≤ t)) [1, 2, 3, 4, 5]
     5 1 0 2
     { interruptRequested := false,
       searchData := { maxLength_ := 7, nbLinesProcessed_ := 9, nbMatches_ := 2,
                       matches_ := {1, 4}, newMatches_ := {4} } }
     5 0
     (initialCombinerState
       { maxLength_ := 7, nbLinesProcessed_ := 9, nbMatches_ := 2,
         matches_ := {1, 4}, newMatches_ := {4} })
     { matchingLines := [3], maxLength := 1, chunkStart := 3, processedLines := 1 }
     (fun i j hij h => by
       simp only [decide_eq_true_eq] at h ⊢
       omega)
     (by decide)⟩

/-! ## Exception handling at the operation boundary -/

/-- Modelled from the spec: the terminal status of a search operation.
The code has no status value; the `catch` branch of the two `run`
methods (structured log, issue report, clear) is the spec's `Errored`
finalisation, and normal return is clean completion. -/
inductive RunOutcome where
  | completed : RunOutcome
  | errored (message : String) : RunOutcome
deriving DecidableEq

/-- Embedding of `FullSearchOperation::run`: inside `try` it clears the
shared data and runs `doSearch`; `body` stands for that pipeline,
returning either the final shared data or — when an exception escapes —
the message and the shared data at the moment of the throw.  The
`catch ( const std::exception& err )` branch formats
`"FullSearchOperation failed: %1"` with `err.what()`, logs it, reports
the issue, and clears the shared match data. -/
def fullSearchOperationRun
    (body : SearchData → Except (String × SearchData) SearchData)
    (d : SearchData) : SearchData × RunOutcome :=
  match body d.clear with
  | .ok d' => (d', .completed)
  | .error (msg, dPartial) =>
    (dPartial.clear, .errored ("FullSearchOperation failed: " ++ msg))

/-- The preparation performed by `UpdateSearchOperation::run` before
searching: `initialLine = qMax( searchData.getLastProcessedLine(), initialPosition_ )`;
when `initialLine >= 1` it is decremented and that match deleted. -/
def updateSearchPrepare (d : SearchData) (initialPosition : Nat) : SearchData × Nat :=
  let initialLine := max d.getLastProcessedLine initialPosition
  if 1 ≤ initialLine then (d.deleteMatch (initialLine - 1), initialLine - 1)
  else (d, initialLine)

/-- Embedding of `UpdateSearchOperation::run`: the preparation and the
search run inside `try`; the `catch` branch formats
`"UpdateSearchOpertaion failed: %1"` (the typo is the source's), logs
it, reports the issue, and clears the shared match data. -/
def updateSearchOperationRun
    (body : SearchData → Nat → Except (String × SearchData) SearchData)
    (d : SearchData) (initialPosition : Nat) : SearchData × RunOutcome :=
  match body (updateSearchPrepare d initialPosition).1
      (updateSearchPrepare d initialPosition).2 with
  | .ok d' => (d', .completed)
  | .error (msg, dPartial) =>
    (dPartial.clear, .errored ("UpdateSearchOpertaion failed: " ++ msg))

/-- C6: if an exception escapes the search pipeline during `run_search`
or `update_search`, it is caught at the operation boundary: whatever
partial state the pipeline left behind, the shared match data is
cleared (match set, new matches, counters all reset) and the operation
finalises with the errored outcome carrying the structured
`"<operation> failed: <message>"` error that is logged; a pipeline that
returns normally completes cleanly instead. -/
theorem c6_exception_clears_and_errors
    (bodyF : SearchData → Except (String × SearchData) SearchData)
    (bodyU : SearchData → Nat → Except (String × SearchData) SearchData)
    (d dF dU : SearchData) (r : Nat) (msgF msgU : String)
    (hF : bodyF d.clear = .error (msgF, dF))
    (hU : bodyU (updateSearchPrepare d r).1 (updateSearchPrepare d r).2
      = .error (msgU, dU)) :
    fullSearchOperationRun bodyF d
      = ({ maxLength_ := 0, nbLinesProcessed_ := 0, nbMatches_ := 0,
           matches_ := ∅, newMatches_ := ∅ },
         .errored ("FullSearchOperation failed: " ++ msgF)) ∧
    (fullSearchOperationRun bodyF d).1.matches_ = ∅ ∧
    (fullSearchOperationRun bodyF d).1.newMatches_ = ∅ ∧
    updateSearchOperationRun bodyU d r
      = ({ maxLength_ := 0, nbLinesProcessed_ := 0, nbMatches_ := 0,
           matches_ := ∅, newMatches_ := ∅ },
         .errored ("UpdateSearchOpertaion failed: " ++ msgU)) ∧
    (updateSearchOperationRun bodyU d r).1.matches_ = ∅ ∧
    (updateSearchOperationRun bodyU d r).1.newMatches_ = ∅ := by
  have h1 : fullSearchOperationRun bodyF d
      = ({ maxLength_ := 0, nbLinesProcessed_ := 0, nbMatches_ := 0,
           matches_ := ∅, newMatches_ := ∅ },
         .errored ("FullSearchOperation failed: " ++ msgF)) := by
    rw [fullSearchOperationRun, hF]
    rfl
  have h2 : updateSearchOperationRun bodyU d r
      = ({ maxLength_ := 0, nbLinesProcessed_ := 0, nbMatches_ := 0,
           matches_ := ∅, newMatches_ := ∅ },
         .errored ("UpdateSearchOpertaion failed: " ++ msgU)) := by
    rw [updateSearchOperationRun, hU]
    rfl
  refine ⟨h1, by rw [h1], by rw [h1], h2, by rw [h2], by rw [h2]⟩

theorem c6_exception_clears_and_errors_witness :
    ((fun _ : SearchData =>
        (Except.error ("bad regex", (⟨3, 6, 1, {2}, {2}⟩ : SearchData))
          : Except (String × SearchData) SearchData))
        (SearchData.clear ⟨0, 0, 0, ∅, ∅⟩)
      = Except.error ("bad regex", (⟨3, 6, 1, {2}, {2}⟩ : SearchData))) ∧
    (fullSearchOperationRun
        (fun _ => Except.error ("bad regex", (⟨3, 6, 1, {2}, {2}⟩ : SearchData)))
        ⟨0, 0, 0, ∅, ∅⟩).1.matches_ = ∅ ∧
    (updateSearchOperationRun
        (fun _ _ => Except.error ("io failure", (⟨3, 6, 1, {2}, {2}⟩ : SearchData)))
        ⟨0, 0, 0, ∅, ∅⟩ 4).2
      = RunOutcome.errored ("UpdateSearchOpertaion failed: " ++ "io failure") :=
  ⟨rfl,
   (c6_exception_clears_and_errors
      (fun _ => Except.error ("bad regex", (⟨3, 6, 1, {2}, {2}⟩ : SearchData)))
      (fun _ _ => Except.error ("io failure", (⟨3, 6, 1, {2}, {2}⟩ : SearchData)))
      ⟨0, 0, 0, ∅, ∅⟩ ⟨3, 6, 1, {2}, {2}⟩ ⟨3, 6, 1, {2}, {2}⟩
      4 "bad regex" "io failure" rfl rfl).2.1,
   congrArg Prod.snd
     (c6_exception_clears_and_errors
      (fun _ => Except.error ("bad regex", (⟨3, 6, 1, {2}, {2}⟩ : SearchData)))
      (fun _ _ => Except.error ("io failure", (⟨3, 6, 1, {2}, {2}⟩ : SearchData)))
      ⟨0, 0, 0, ∅, ∅⟩ ⟨3, 6, 1, {2}, {2}⟩ ⟨3, 6, 1, {2}, {2}⟩
      4 "bad regex" "io failure" rfl rfl).2.2.2.1⟩

/-! ## Matcher pool size (`doSearch`) -/

/-- Embedding of the matcher-count computation of the current
`SearchOperation::doSearch`: one matcher when parallel search is
disabled, otherwise
`qMax( 1, configuredThreadPoolSize == 0 ? tbb::info::default_concurrency() : configuredThreadPoolSize )`,
with the hardware default concurrency passed in as a parameter. -/
def matchingThreadsCount (useParallelSearch : Bool) (searchThreadPoolSize : Nat)
    (defaultConcurrency : Nat) : Nat :=
  if !useParallelSearch then 1
  else max 1 (if searchThreadPoolSize = 0 then defaultConcurrency
              else searchThreadPoolSize)

/-- Embedding of the legacy matcher-count computation
(`logfiltereddataworkerthread.cpp`):
`qMax( 1, searchThreadPoolSize == 0 ? QThread::idealThreadCount() - 1 : searchThreadPoolSize )`
when parallel search is enabled, 1 otherwise. -/
def legacyMatchingThreadsCount (useParallelSearch : Bool) (searchThreadPoolSize : Nat)
    (idealThreadCount : Nat) : Nat :=
  if !useParallelSearch then 1
  else max 1 (if searchThreadPoolSize = 0 then idealThreadCount - 1
              else searchThreadPoolSize)

/-- Specification-side definition following the words of claim C7: one
matcher when parallel search is disabled, `max(1, configured_pool_size)`
when enabled, and `max(1, hardware_concurrency - 1)` when the
configured pool size is 0. -/
def claimMatcherCount (parallel : Bool) (configured hardwareConcurrency : Nat) : Nat :=
  if !parallel then 1
  else if configured = 0 then max 1 (hardwareConcurrency - 1)
  else max 1 configured

/-- C7 counterexample: on a machine whose hardware concurrency is 4
(so `tbb::info::default_concurrency() = 4`), with parallel search
enabled and a configured pool size of 0, the code uses
`max(1, 4) = 4` matcher threads while the claim prescribes
`max(1, 4 - 1) = 3`. -/
theorem c7_counterexample :
    matchingThreadsCount true 0 4 = 4 ∧ claimMatcherCount true 0 4 = 3 ∧
    matchingThreadsCount true 0 4 ≠ claimMatcherCount true 0 4 := by
  decide

/-- C7 (amended): when parallel search is disabled exactly one matcher
thread is used; when it is enabled with a non-zero configured pool size,
`matcher_count = max(1, configured_pool_size)`; when the configured
pool size is 0 the current implementation uses
`matcher_count = max(1, default_concurrency)` — the full hardware
concurrency, not `hardware_concurrency - 1`; the `- 1` variant of the
claim is what the legacy worker computed from
`QThread::idealThreadCount()`. -/
theorem c7_matcher_count (cfg dc hw : Nat) :
    matchingThreadsCount false cfg dc = 1 ∧
    (cfg ≠ 0 → matchingThreadsCount true cfg dc = max 1 cfg) ∧
    matchingThreadsCount true 0 dc = max 1 dc ∧
    legacyMatchingThreadsCount true 0 hw = max 1 (hw - 1) ∧
    legacyMatchingThreadsCount true 0 hw = claimMatcherCount true 0 hw := by
  refine ⟨rfl, fun hcfg => ?_, rfl, rfl, rfl⟩
  simp [matchingThreadsCount, hcfg]

theorem c7_matcher_count_witness :
    ((3 : Nat) ≠ 0 ∧ matchingThreadsCount true 3 8 = max 1 3) ∧
    matchingThreadsCount false 3 8 = 1 ∧
    legacyMatchingThreadsCount true 0 8 = max 1 (8 - 1) :=
  ⟨⟨by decide, (c7_matcher_count 3 8 8).2.1 (by decide)⟩,
   (c7_matcher_count 3 8 8).1,
   (c7_matcher_count 3 8 8).2.2.2.1⟩
